import Mathlib

/-!
Verification of the ATHENA LATS engine and pipeline orchestrator.

This file gives a shallow embedding of the core algorithmic parts of the
repository:

* `backend/app/services/lats_engine.py` — the `TreeNode` data structure, the
  `SearchTrace` audit log, and the `LATSEngine.search` tree-search-with-
  reflection loop, together with its private helpers (`_expand`, `_safe_call`,
  `_safe_score`, `_safe_reflect`, `_build_improved_prompt`, `_backpropagate`)
  and the module-level heuristic value/reflect functions.
* `backend/app/services/pipeline_orchestrator.py` — `LATSPipelineOrchestrator`
  (`__init__`, `run`, `_emit`).

Modelling conventions:

* Python floats used for scores are modelled as rationals (`ℚ`); all score
  arithmetic performed by the engine (clamping, comparison, addition) is exact,
  so nothing is lost.  The `ucb1` method additionally uses `sqrt`/`log`; it is
  modelled separately over `ℝ`, with `Option ℝ` as result type where `none`
  stands for the float value `+infinity` returned by the Python code and
  `some x` for the finite value `x`.
* The mutable object graph of `TreeNode`s is modelled as an arena: a list of
  nodes in creation order, each holding the index of its parent (`none` for
  the root, which always sits at index 0).  The `children` lists of the Python
  code are derivable from the parent indices and are not modelled separately.
* The fallible async collaborators `agent_fn`, `value_fn` and `reflect_fn` are
  modelled as oracles returning `Option` values, `none` meaning "raised an
  exception" (for `agent_fn` also "returned None" — both are treated
  identically by `_expand`).  `agent_fn` is indexed by a global call counter so
  that successive calls may return different candidates, as an LLM would.
  Both branches of `_expand` (`concurrent_expand` true/false) produce the
  outcomes of its `n` calls in issue order — `asyncio.gather` preserves source
  order — so the model treats them identically.
* Wall-clock fields (`created_at`, `duration_ms`) and display-only data (the
  4-decimal rounding of scores stored in trace records, the extra keyword tags
  passed to `SearchTrace.add_node`, and logging calls) are not modelled; no
  claim depends on them.
* `search` in the model additionally returns the final arena.  The Python code
  discards the tree when `search` returns; the arena is kept here as ghost
  state so that invariants about the tree can be stated.
-/

namespace Athena

/-- Engine configuration: the constructor arguments of `LATSEngine.__init__`
(`n_candidates`, `max_depth`, `quality_threshold`, `exploration_weight`,
`concurrent_expand`) with their Python default values. -/
structure Config where
  nCandidates : ℕ := 3
  maxDepth : ℕ := 2
  qualityThreshold : ℚ := 65/100
  explorationWeight : ℚ := 1414/1000
  concurrentExpand : Bool := true
deriving DecidableEq

/-- A node of the LATS search tree (`TreeNode`).  `parent` is the arena index
of the parent node (`none` for the root); the root node's `state` is Python's
`None`, hence `state : Option α`.  `created_at` (wall clock) is not modelled,
and the `children` list is recoverable from the parent indices. -/
structure Node (α : Type) where
  state : Option α
  parent : Option ℕ
  visits : ℕ
  value : ℚ
  score : ℚ
  reflection : String
  depth : ℕ
deriving DecidableEq

/-- One record appended by `SearchTrace.add_node`: depth, 1-based candidate
index within the expansion, and the score (the Python code stores the score
rounded to 4 decimals plus display-only keyword tags; neither is modelled). -/
structure TraceEntry where
  depth : ℕ
  candidate : ℕ
  score : ℚ
deriving DecidableEq

/-- The `SearchTrace` audit log.  `duration_ms` (wall clock) is not
modelled. -/
structure SearchTrace where
  jobId : String
  totalCandidates : ℕ
  bestScore : ℚ
  reflectionTriggered : Bool
  nodes : List TraceEntry
deriving DecidableEq

/-- `SearchTrace.add_node`: append a record, bump `total_candidates`, and
update the running maximum `best_score`. -/
def SearchTrace.addNode (t : SearchTrace) (depth cand : ℕ) (score : ℚ) :
    SearchTrace :=
  { t with
    nodes := t.nodes ++ [⟨depth, cand, score⟩]
    totalCandidates := t.totalCandidates + 1
    bestScore := if t.bestScore < score then score else t.bestScore }

/-- The three fallible collaborators handed to `search`.  `agent` takes the
prompt and the global call index (the `i`-th invocation of `agent_fn` during
this search); `none` models an exception or a `None` return.  `value` and
`reflect` return `none` when the corresponding Python function raises.
`reflect` receives the best node's `state` field, which is an `Option α`. -/
structure Env (α : Type) where
  agent : String → ℕ → Option α
  value : α → Option ℚ
  reflect : Option α → ℚ → Option String

/-- `LATSEngine._safe_score`: clamp the score into `[0, 1]`, or return the
neutral `0.5` when `value_fn` raises. -/
def safeScore {α : Type} (value : α → Option ℚ) (r : α) : ℚ :=
  match value r with
  | some s => max 0 (min 1 s)
  | none => 1/2

/-- The fallback critique returned by `LATSEngine._safe_reflect` when
`reflect_fn` raises. -/
def fallbackReflection : String :=
  "Improve comprehensiveness and accuracy of the analysis."

/-- `LATSEngine._safe_reflect`. -/
def safeReflect {α : Type} (reflect : Option α → ℚ → Option String)
    (r : Option α) (s : ℚ) : String :=
  (reflect r s).getD fallbackReflection

/-- `LATSEngine._build_improved_prompt`: append the reflection to the original
prompt under the fixed feedback delimiter. -/
def buildImprovedPrompt (originalPrompt reflection : String) : String :=
  originalPrompt ++ "\n\n---\n## Quality Feedback from previous attempt:\n" ++
    reflection ++
    "\n\nPlease address the above feedback to produce a higher-quality analysis."

/-- `LATSEngine._expand`: issue `n` agent calls (call indices
`calls, …, calls + n - 1`) and keep the non-`None`, non-exception results in
source order.  Returns the surviving candidates and the updated call
counter. -/
def expand {α : Type} (agent : String → ℕ → Option α) (prompt : String)
    (n calls : ℕ) : List α × ℕ :=
  (((List.range n).map fun i => agent prompt (calls + i)).filterMap id,
    calls + n)

/-- Score of the node at arena index `i` (`best_node.score`); `0` as a
don't-care default for an out-of-range index, which never occurs during a
search. -/
def scoreAt {α : Type} (arena : List (Node α)) (i : ℕ) : ℚ :=
  ((arena[i]?).map Node.score).getD 0

/-- State of the node at arena index `i` (`best_node.state`). -/
def stateAt {α : Type} (arena : List (Node α)) (i : ℕ) : Option α :=
  ((arena[i]?).map Node.state).getD none

/-- The field write `best_node.reflection = reflection`. -/
def setReflection {α : Type} (arena : List (Node α)) (i : ℕ) (r : String) :
    List (Node α) :=
  match arena[i]? with
  | none => arena
  | some nd => arena.set i { nd with reflection := r }

/-- Worker for `LATSEngine._backpropagate`: walk the parent chain from node
`i`, incrementing `visits` and adding `v` to `value` at every node touched.
The fuel bounds the walk; parent indices strictly decrease towards the root
in every arena the search builds (a node's parent exists before the node), so
fuel `arena.length` always suffices — the Python `while` loop terminates for
the same reason. -/
def backpropAux {α : Type} : ℕ → List (Node α) → ℕ → ℚ → List (Node α)
  | 0, arena, _, _ => arena
  | fuel + 1, arena, i, v =>
    match arena[i]? with
    | none => arena
    | some nd =>
      let arena' := arena.set i
        { nd with visits := nd.visits + 1, value := nd.value + v }
      match nd.parent with
      | none => arena'
      | some p => backpropAux fuel arena' p v

/-- `LATSEngine._backpropagate`. -/
def backprop {α : Type} (arena : List (Node α)) (i : ℕ) (v : ℚ) :
    List (Node α) :=
  backpropAux arena.length arena i v

/-- The mutable local state of one `search` call: the tree arena, the trace,
the index of `best_node` (if any), and the number of `agent_fn` calls issued
so far. -/
structure SState (α : Type) where
  arena : List (Node α)
  trace : SearchTrace
  best : Option ℕ
  calls : ℕ

/-- What `search` returns: `(best_result, best_score, trace)`, plus the final
arena as ghost state (the Python code discards the tree). -/
structure SearchResult (α : Type) where
  result : Option α
  score : ℚ
  trace : SearchTrace
  arena : List (Node α)

/-- The arena carried by either outcome of a search phase (an early-exit
result or a continuing state). -/
def outArena {α : Type} : SearchResult α ⊕ SState α → List (Node α)
  | .inl res => res.arena
  | .inr st => st.arena

/-- The depth-1 loop of `search` (`for idx, result in enumerate(results)`):
score the candidate, create a depth-1 child of the root with
`visits=1, value=score`, record it in the trace, update `best_node`, and exit
early (backpropagating first) when the score reaches the threshold. -/
def level1Loop {α : Type} (cfg : Config) (value : α → Option ℚ) :
    List α → ℕ → SState α → SearchResult α ⊕ SState α
  | [], _, st => .inr st
  | r :: rest, idx, st =>
    let score := safeScore value r
    let nodeIdx := st.arena.length
    let node : Node α :=
      { state := some r, parent := some 0, visits := 1, value := score,
        score := score, reflection := "", depth := 1 }
    let arena := st.arena ++ [node]
    let trace := st.trace.addNode 1 (idx + 1) score
    let best := match st.best with
      | none => some nodeIdx
      | some b => if scoreAt st.arena b < score then some nodeIdx else some b
    if cfg.qualityThreshold ≤ score then
      .inl { result := some r, score := score, trace := trace,
             arena := backprop arena nodeIdx score }
    else
      level1Loop cfg value rest (idx + 1)
        { arena := arena, trace := trace, best := best, calls := st.calls }

/-- The inner loop of one reflection round
(`for idx, result in enumerate(refined)`).  `b` is the arena index of the
current `best_node`: each new node is attached to it (`parent=best_node`) with
the round's loop depth `d` as its `depth` field; a strictly better score moves
`best_node` to the new node, and a score reaching the threshold exits early
after backpropagation. -/
def refineLoop {α : Type} (cfg : Config) (value : α → Option ℚ) (d : ℕ) :
    List α → ℕ → ℕ → SState α → SearchResult α ⊕ SState α
  | [], _, b, st => .inr { st with best := some b }
  | r :: rest, idx, b, st =>
    let score := safeScore value r
    let nodeIdx := st.arena.length
    let node : Node α :=
      { state := some r, parent := some b, visits := 1, value := score,
        score := score, reflection := "", depth := d }
    let arena := st.arena ++ [node]
    let trace := st.trace.addNode d (idx + 1) score
    let b' := if scoreAt st.arena b < score then nodeIdx else b
    if cfg.qualityThreshold ≤ score then
      .inl { result := some r, score := score, trace := trace,
             arena := backprop arena nodeIdx score }
    else
      refineLoop cfg value d rest (idx + 1) b'
        { st with arena := arena, trace := trace }

/-- One iteration of the reflection loop at loop depth `d`.  When `best_node`
is `None` the Python code `break`s; since `best` can only be `none` here if it
was `none` when the loop started (no iteration unsets it), returning the state
unchanged models the `break` exactly.  Otherwise: reflect on the best node,
store the critique on it, mark `reflection_triggered`, expand
`max(2, n_candidates - 1)` candidates from the improved prompt, and run the
inner loop. -/
def reflectionRound {α : Type} (cfg : Config) (env : Env α) (prompt : String)
    (d : ℕ) (st : SState α) : SearchResult α ⊕ SState α :=
  match st.best with
  | none => .inr st
  | some b =>
    let reflection :=
      safeReflect env.reflect (stateAt st.arena b) (scoreAt st.arena b)
    let arena := setReflection st.arena b reflection
    let trace := { st.trace with reflectionTriggered := true }
    let improved := buildImprovedPrompt prompt reflection
    let (refined, calls) :=
      expand env.agent improved (max 2 (cfg.nCandidates - 1)) st.calls
    refineLoop cfg env.value d refined 0 b
      { arena := arena, trace := trace, best := some b, calls := calls }

/-- The reflection loop `for depth in range(2, max_depth + 1)`, over the list
of loop depths still to run. -/
def reflectionLoop {α : Type} (cfg : Config) (env : Env α) (prompt : String) :
    List ℕ → SState α → SearchResult α ⊕ SState α
  | [], st => .inr st
  | d :: ds, st =>
    match reflectionRound cfg env prompt d st with
    | .inl early => .inl early
    | .inr st' => reflectionLoop cfg env prompt ds st'

/-- The loop depths `range(2, max_depth + 1)`. -/
def roundDepths (maxDepth : ℕ) : List ℕ := List.range' 2 (maxDepth - 1)

/-- The final-return block of `search`: with a best node, backpropagate its
score up its ancestor chain and return its state and score; with none, return
`(None, 0.0, trace)`. -/
def finalize {α : Type} (st : SState α) : SearchResult α :=
  match st.best with
  | none => { result := none, score := 0, trace := st.trace, arena := st.arena }
  | some b =>
    let s := scoreAt st.arena b
    { result := stateAt st.arena b, score := s, trace := st.trace,
      arena := backprop st.arena b s }

/-- The fresh trace `SearchTrace(job_id=job_id)`. -/
def initTrace (jobId : String) : SearchTrace :=
  { jobId := jobId, totalCandidates := 0, bestScore := 0,
    reflectionTriggered := false, nodes := [] }

/-- The root node `TreeNode(state=None, depth=0)`. -/
def rootNode (α : Type) : Node α :=
  { state := none, parent := none, visits := 0, value := 0, score := 0,
    reflection := "", depth := 0 }

/-- `LATSEngine.search`: depth-1 expansion and scoring loop, reflection loop
for depths `2..max_depth`, final return. -/
def search {α : Type} (cfg : Config) (env : Env α)
    (initialPrompt jobId : String) : SearchResult α :=
  let (results, calls) := expand env.agent initialPrompt cfg.nCandidates 0
  let st0 : SState α :=
    { arena := [rootNode α], trace := initTrace jobId, best := none,
      calls := calls }
  match level1Loop cfg env.value results 0 st0 with
  | .inl early => early
  | .inr st =>
    match reflectionLoop cfg env initialPrompt (roundDepths cfg.maxDepth) st with
    | .inl early => early
    | .inr st' => finalize st'

/-- `TreeNode.ucb1`, over `ℝ`.  Arguments are the node's `visits` and `value`
and the parent's `visits` (`none` when the node has no parent; the code then
substitutes the node's own visit count).  `none` in the result models the
float `+infinity`; `some x` is the finite value `x`. -/
noncomputable def ucb1 (visits : ℕ) (value : ℝ) (parent : Option ℕ)
    (w : ℝ) : Option ℝ :=
  if visits = 0 then none
  else
    let parentVisits := parent.getD visits
    if parentVisits = 0 then none
    else some (value / visits + w * Real.sqrt (Real.log parentVisits / visits))

/-- `TreeNode.is_promising`: `score >= 0.65`, a fixed threshold independent of
the engine's configurable `quality_threshold`. -/
def isPromising (score : ℚ) : Bool := 65/100 ≤ score

/-!
## Heuristic value / reflect functions

The module-level defaults of `lats_engine.py`.  `heuristic_scout_value` and
`heuristic_strategy_value` read their argument with `getattr(..., default)`
duck typing and `or []` falsy-coalescing; the model captures the data those
reads produce: list fields as their lengths (`len(...)` is all the code uses),
`data_quality` as the completeness value `dq.get("completeness_score", 0.5)`
(`0.5` when the field is absent or not a dict), `swot` as an optional record
of the four quadrant list lengths, and `gtm` as its truthiness.  The inner
`try/except` arms (score `0.5` on attribute errors) are unreachable in the
typed model.
-/

/-- The data `heuristic_scout_value` extracts from a `ScoutResult`. -/
structure ScoutResult where
  competitors : ℕ
  marketTrends : ℕ
  customerSegments : ℕ
  dataQualityCompleteness : ℚ
deriving DecidableEq

/-- `heuristic_scout_value`: completeness-weighted score in `[0, 1]`. -/
def heuristicScoutValue (result : Option ScoutResult) : ℚ :=
  match result with
  | none => 0
  | some r =>
    let score :=
      min (35/100) ((r.competitors : ℚ) * (7/100)) +
      min (30/100) ((r.marketTrends : ℚ) * (6/100)) +
      min (20/100) ((r.customerSegments : ℚ) * (10/100)) +
      (15/100) * r.dataQualityCompleteness
    min 1 score

/-- The four SWOT quadrant list lengths read by `heuristic_strategy_value`. -/
structure Swot where
  strengths : ℕ
  weaknesses : ℕ
  opportunities : ℕ
  threats : ℕ
deriving DecidableEq

/-- The data `heuristic_strategy_value` extracts from a `StrategyResult`. -/
structure StrategyResult where
  swot : Option Swot
  gtm : Bool
  positioningOptions : ℕ
  immediateActions : ℕ
deriving DecidableEq

/-- `heuristic_strategy_value`: SWOT/GTM/positioning-weighted score in
`[0, 1]`. -/
def heuristicStrategyValue (result : Option StrategyResult) : ℚ :=
  match result with
  | none => 0
  | some r =>
    let s1 := match r.swot with
      | some sw =>
        min (40/100)
          (((sw.strengths + sw.weaknesses + sw.opportunities + sw.threats : ℕ) : ℚ)
            * (25/1000))
      | none => 0
    let s2 := if r.gtm then 25/100 else 0
    let s3 := min (20/100) ((r.positioningOptions : ℚ) * (67/1000))
    let s4 := min (15/100) ((r.immediateActions : ℚ) * (5/100))
    min 1 (s1 + s2 + s3 + s4)

/-- `heuristic_reflect`: a reflection prompt chosen by score band.  The
source formats the score with two decimals in the header line; the exact
rendering is display-only and `toString` stands in for it here. -/
def heuristicReflect {α : Type} (_result : α) (score : ℚ) : String :=
  let header :=
    "The analysis scored " ++ toString score ++
      "/1.00. Specific improvements needed:"
  let lines :=
    if score < 40/100 then
      ["- The output is significantly incomplete. Ensure all required sections are populated.",
       "- Provide at least 5 competitors with detailed profiles and confidence scores.",
       "- Include minimum 4 market trends with supporting evidence and URLs.",
       "- Add at least 3 customer segments with pain points and personas."]
    else if score < 65/100 then
      ["- Add more specific data points with source attribution for each claim.",
       "- Strengthen the SWOT analysis with concrete, evidence-backed examples.",
       "- Expand the GTM strategy with clear timelines and success metrics.",
       "- Add quantitative estimates (market size, growth rate, percentages)."]
    else
      ["- Add quantitative metrics (market sizes, growth rates, funding data).",
       "- Include more specific competitive differentiation analysis with examples.",
       "- Strengthen success metrics with measurable, time-bound KPIs.",
       "- Add contingency strategies for the top 2 identified risks."]
  String.intercalate "\n" (header :: lines)

/-!
## Pipeline orchestrator

`LATSPipelineOrchestrator` of `pipeline_orchestrator.py`.  The four stage
services `run_scout`, `run_analyst`, `run_strategy`, `run_presenter` are
external LLM/HTTP collaborators (out of core scope per the spec); they are
modelled as oracles in `Stages`.  `run_scout`/`run_strategy` may be invoked
several times per run (as `agent_fn` of a LATS search), hence the call-index
argument; `none` models a `None` return.  Raised runtime errors of `run`
itself are modelled with `Except String`.  The model additionally returns the
ordered list of collaborator invocations and status-callback emissions as
ghost state, so that "stage X was never invoked" can be stated. -/

/-- Observable events of one `run` call (ghost state): direct stage-service
invocations, LATS searches (with the `n_candidates` the engine used), and
status-callback emissions. -/
inductive CallEvent where
  | scoutCall
  | analystCall
  | strategyCall
  | presenterCall
  | latsSearch (stage : String) (nCandidates : ℕ)
  | callback (stage : String) (progress : ℕ)
deriving DecidableEq

/-- A `lats_traces` entry: a real `SearchTrace.to_dict()` or the bypass
marker `{"score": 1.0, "lats_used": False}` recorded when LATS is skipped. -/
inductive LatsTraceEntry where
  | trace (t : SearchTrace)
  | bypass
deriving DecidableEq

/-- The stage-service collaborators of one `run` call.  `scout i` is the
outcome of the `i`-th `run_scout(target)` invocation, `strategy i b` that of
the `i`-th `run_strategy(analyst_result)` invocation; `analyst` and
`presenter` are invoked once.  `strB` models `str(analyst_result)`, the
initial prompt of the strategy search. -/
structure Stages (β π : Type) where
  scout : ℕ → Option ScoutResult
  analyst : ScoutResult → Option β
  strategy : ℕ → β → Option StrategyResult
  presenter : ScoutResult → β → StrategyResult → Option π
  strB : β → String

/-- The orchestrator's own state: the master switch and its two (mutable)
engines. -/
structure Orchestrator where
  useLats : Bool
  scoutEngine : Config
  strategyEngine : Config
deriving DecidableEq

/-- `LATSPipelineOrchestrator.__init__` with its Python defaults: both engines
share `n_candidates`, `max_depth` and `quality_threshold`; `LATSEngine`'s own
defaults fill `exploration_weight` and `concurrent_expand`. -/
def mkOrchestrator (nCandidates : ℕ := 2) (qualityThreshold : ℚ := 65/100)
    (maxDepth : ℕ := 2) (useLats : Bool := true) : Orchestrator :=
  { useLats := useLats
    scoutEngine :=
      { nCandidates := nCandidates, maxDepth := maxDepth,
        qualityThreshold := qualityThreshold }
    strategyEngine :=
      { nCandidates := nCandidates, maxDepth := maxDepth,
        qualityThreshold := qualityThreshold } }

/-- The successful return value of `run`: the `results` dict.  The presenter
result is stored without a `None` check, hence `Option π`. -/
structure RunResult (β π : Type) where
  jobId : String
  target : String
  scout : ScoutResult
  analyst : β
  strategy : StrategyResult
  presenter : Option π
  latsTraces : List (String × LatsTraceEntry)

/-- Everything one `run` call produces: the result or raised error, the
orchestrator as left behind (its engines may have been mutated), and the
ghost event log. -/
structure RunOutput (β π : Type) where
  result : Except String (RunResult β π)
  orch : Orchestrator
  events : List CallEvent

/-- The message of the `RuntimeError` raised when a stage yields `None`:
`f"[Orchestrator][{job_id}] {stage} stage failed"`. -/
def errMsg (jobId stage : String) : String :=
  "[Orchestrator][" ++ jobId ++ "] " ++ stage ++ " stage failed"

/-- `_emit`: one status-callback emission when a callback was supplied.
Callback exceptions are caught and logged, so the emission has no other
effect on the run. -/
def emitEv (hasCb : Bool) (stage : String) (progress : ℕ) : List CallEvent :=
  if hasCb then [.callback stage progress] else []

/-- The depth-based `n_candidates` adjustment at the top of `run`
(quick → 1, deep → 3, anything else unchanged).  The engines are mutated in
place and nothing ever restores them. -/
def adjustDepth (o : Orchestrator) (depth : String) : Orchestrator :=
  if depth == "quick" then
    { o with scoutEngine := { o.scoutEngine with nCandidates := 1 },
             strategyEngine := { o.strategyEngine with nCandidates := 1 } }
  else if depth == "deep" then
    { o with scoutEngine := { o.scoutEngine with nCandidates := 3 },
             strategyEngine := { o.strategyEngine with nCandidates := 3 } }
  else o

/-- The search environment of the Scout stage: `agent_fn` is
`lambda _p: run_scout(target)` (the prompt is ignored, the oracle call index
counts invocations), `value_fn` is `heuristic_scout_value`, `reflect_fn` is
`heuristic_reflect`.  The heuristics never raise, hence the `some` wrappers. -/
def scoutEnv {β π : Type} (stg : Stages β π) : Env ScoutResult :=
  { agent := fun _ i => stg.scout i
    value := fun r => some (heuristicScoutValue (some r))
    reflect := fun r s => some (heuristicReflect r s) }

/-- The search environment of the Strategy stage, for a fixed analyst result
`b`: `agent_fn` is `lambda _p: run_strategy(analyst_result)`, `value_fn` is
`heuristic_strategy_value`, `reflect_fn` is `heuristic_reflect`. -/
def strategyEnv {β π : Type} (stg : Stages β π) (b : β) : Env StrategyResult :=
  { agent := fun _ i => stg.strategy i b
    value := fun r => some (heuristicStrategyValue (some r))
    reflect := fun r s => some (heuristicReflect r s) }

/-- The Scout stage of `run`: a LATS search when `use_lats` is on and the
depth is not `"quick"`, otherwise a direct `run_scout` call with the bypass
trace marker.  Returns the stage result, the `lats_traces` entry, and the
events produced. -/
def scoutStage {β π : Type} (o : Orchestrator) (stg : Stages β π)
    (target jobId depth : String) :
    Option ScoutResult × LatsTraceEntry × List CallEvent :=
  if o.useLats && !(depth == "quick") then
    let sr := search o.scoutEngine (scoutEnv stg) target jobId
    (sr.result, .trace sr.trace, [.latsSearch "scout" o.scoutEngine.nCandidates])
  else
    (stg.scout 0, .bypass, [.scoutCall])

/-- The Strategy stage of `run`, given the analyst result `b`. -/
def strategyStage {β π : Type} (o : Orchestrator) (stg : Stages β π) (b : β)
    (jobId depth : String) :
    Option StrategyResult × LatsTraceEntry × List CallEvent :=
  if o.useLats && !(depth == "quick") then
    let sr := search o.strategyEngine (strategyEnv stg b) (stg.strB b) jobId
    (sr.result, .trace sr.trace,
      [.latsSearch "strategy" o.strategyEngine.nCandidates])
  else
    (stg.strategy 0 b, .bypass, [.strategyCall])

/-- `LATSPipelineOrchestrator.run`: adjust the engines for `depth`, then
Scout → Analyst → Strategy → Presenter with a status-callback emission before
each stage, failing fast with a stage-specific `RuntimeError` when Scout,
Analyst or Strategy yields `None`.  The presenter result is stored without a
check. -/
def run {β π : Type} (o : Orchestrator) (stg : Stages β π)
    (jobId target depth : String) (hasCb : Bool) : RunOutput β π :=
  let o := adjustDepth o depth
  let ev0 := emitEv hasCb "SCOUT" 10
  let (scoutRes, scTrace, evS) := scoutStage o stg target jobId depth
  let ev1 := ev0 ++ evS
  match scoutRes with
  | none => ⟨.error (errMsg jobId "Scout"), o, ev1⟩
  | some s =>
    let ev2 := ev1 ++ emitEv hasCb "ANALYST" 35
    let ev3 := ev2 ++ [.analystCall]
    match stg.analyst s with
    | none => ⟨.error (errMsg jobId "Analyst"), o, ev3⟩
    | some a =>
      let ev4 := ev3 ++ emitEv hasCb "STRATEGY" 55
      let (stratRes, stTrace, evT) := strategyStage o stg a jobId depth
      let ev5 := ev4 ++ evT
      match stratRes with
      | none => ⟨.error (errMsg jobId "Strategy"), o, ev5⟩
      | some g =>
        let ev6 := ev5 ++ emitEv hasCb "PRESENTER" 80
        let p := stg.presenter s a g
        let ev7 := ev6 ++ [.presenterCall] ++ emitEv hasCb "DONE" 100
        ⟨.ok { jobId := jobId, target := target, scout := s, analyst := a,
               strategy := g, presenter := p,
               latsTraces := [("scout", scTrace), ("strategy", stTrace)] },
          o, ev7⟩

/-!
## Predicates used in the statements, and concrete fixtures
-/

/-- The fields of a node never mutated after creation: everything except the
MCTS statistics `visits`/`value` and the `reflection` text. -/
def skel {α : Type} (n : Node α) : Option α × Option ℕ × ℚ × ℕ :=
  (n.state, n.parent, n.score, n.depth)

/-- The per-node invariant of claim C6: `value` is non-negative (so is
`score`, needed to propagate) and `visits = 0` implies `value = 0`. -/
def nodeInv {α : Type} (n : Node α) : Prop :=
  0 ≤ n.value ∧ 0 ≤ n.score ∧ (n.visits = 0 → n.value = 0)

/-- C6's invariant over a whole arena. -/
def arenaInv {α : Type} (A : List (Node α)) : Prop := ∀ n ∈ A, nodeInv n

/-- Every child of the root (parent index 0) carries depth 1. -/
def childDepthInv {α : Type} (A : List (Node α)) : Prop :=
  ∀ n ∈ A, n.parent = some 0 → n.depth = 1

/-- The root sits at index 0 with depth 0 and no parent. -/
def rootDP {α : Type} (A : List (Node α)) : Prop :=
  (A[0]?).map (fun n => (n.depth, n.parent)) = some (0, none)

/-- The combined search-state invariant for claim C2: the arena is nonempty,
the root is well-formed, children of the root have depth 1, and `best_node`
is never the root. -/
def stInv {α : Type} (st : SState α) : Prop :=
  1 ≤ st.arena.length ∧ rootDP st.arena ∧ childDepthInv st.arena ∧
    ∀ b, st.best = some b → 1 ≤ b

/-- Attachment discipline of one reflection round (claim C3): every node at
index `≥ baseLen` (i.e. created during the round, `baseLen` being the arena
size when the round started) has as parent either `b0` (the round-start
`best_node`, on which the reflection was stored) or an earlier node created
in the same round. -/
def attachedToRound {α : Type} (baseLen b0 : ℕ) (A : List (Node α)) : Prop :=
  ∀ j n, baseLen ≤ j → A[j]? = some n →
    n.parent = some b0 ∨ ∃ p, n.parent = some p ∧ baseLen ≤ p ∧ p < j

/-- Fixture: engine with one depth-1 candidate, two reflection rounds worth
of configuration (`max_depth = 2`), and an unreachable quality threshold of 2
so that no early exit occurs (integer-valued scores keep every comparison
kernel-computable). -/
def cfgS : Config :=
  { nCandidates := 1, maxDepth := 2, qualityThreshold := 2,
    explorationWeight := 2, concurrentExpand := true }

/-- Fixture environment: the `i`-th agent call returns candidate `i`;
candidate 1 scores 1, all others score 0; reflection text is `"r"`.  No score
reaches the threshold 2, so no early exit, and the first refined candidate
(score 1) strictly improves on the depth-1 best (score 0), moving `best_node`
mid-round. -/
def envS : Env ℕ :=
  { agent := fun _ i => some i
    value := fun r => some (if r = 1 then 1 else 0)
    reflect := fun _ _ => some "r" }

/-- The search run on the fixture. -/
def searchS : SearchResult ℕ := search cfgS envS "p" "job"

/-- Fixture state for the round-level witnesses: the state after the depth-1
expansion of `searchS` (root plus one depth-1 node of score 0,
`best_node` = node 1). -/
def stS1 : SState ℕ :=
  { arena := [rootNode ℕ,
      { state := some 0, parent := some 0, visits := 1, value := 0,
        score := 0, reflection := "", depth := 1 }]
    trace := initTrace "job", best := some 1, calls := 1 }

/-- Fixture for the C1 witness: three candidates per expansion, threshold 1
(integer-valued so that every comparison is kernel-computable). -/
def cfgW : Config :=
  { nCandidates := 3, maxDepth := 2, qualityThreshold := 1,
    explorationWeight := 2, concurrentExpand := true }

/-- Fixture environment for the C1 witness: candidate 0 scores 1 (at the
threshold), later candidates 0. -/
def envW : Env ℕ :=
  { agent := fun _ i => some i
    value := fun r => some (if r = 0 then 1 else 0)
    reflect := fun _ _ => some "r" }

/-- An arbitrary concrete scout result for orchestrator witnesses. -/
def scoutResW : ScoutResult :=
  { competitors := 5, marketTrends := 4, customerSegments := 3,
    dataQualityCompleteness := 1 }

/-- An arbitrary concrete strategy result for orchestrator witnesses. -/
def strategyResW : StrategyResult :=
  { swot := none, gtm := true, positioningOptions := 1, immediateActions := 1 }

/-- Orchestrator fixture with LATS disabled (direct stage calls). -/
def oDirect : Orchestrator := mkOrchestrator 2 (65/100) 2 false

/-- Orchestrator fixture with LATS enabled. -/
def oLats : Orchestrator := mkOrchestrator 2 (65/100) 2 true

/-- Stage fixture whose Scout always fails. -/
def stgFailScout : Stages ℕ ℕ :=
  { scout := fun _ => none, analyst := fun _ => some 0,
    strategy := fun _ _ => some strategyResW,
    presenter := fun _ _ _ => some 0, strB := fun _ => "a" }

/-- Stage fixture whose Strategy always fails. -/
def stgFailStrategy : Stages ℕ ℕ :=
  { scout := fun _ => some scoutResW, analyst := fun _ => some 0,
    strategy := fun _ _ => none,
    presenter := fun _ _ _ => some 0, strB := fun _ => "a" }

/-- Stage fixture whose Analyst always fails. -/
def stgFailAnalyst : Stages ℕ ℕ :=
  { scout := fun _ => some scoutResW, analyst := fun _ => none,
    strategy := fun _ _ => some strategyResW,
    presenter := fun _ _ _ => some 0, strB := fun _ => "a" }

/-- Stage fixture where everything succeeds except the Presenter, which
returns `None`. -/
def stgPresenterNone : Stages ℕ ℕ :=
  { scout := fun _ => some scoutResW, analyst := fun _ => some 0,
    strategy := fun _ _ => some strategyResW,
    presenter := fun _ _ _ => none, strB := fun _ => "a" }

/-- C2's invariant lifted to a phase outcome: an early exit carries a
well-formed arena; a continuing state additionally constrains `best`. -/
def outOk {α : Type} : SearchResult α ⊕ SState α → Prop
  | .inl res => rootDP res.arena ∧ childDepthInv res.arena
  | .inr st => stInv st

/-- C6's invariant lifted to a phase outcome. -/
def outValInv {α : Type} : SearchResult α ⊕ SState α → Prop
  | .inl res => arenaInv res.arena
  | .inr st => arenaInv st.arena

/-!
## Basic lemmas about the helpers
-/

lemma lt_length_of_getElem?_eq_some {α : Type} {A : List α} {i : ℕ} {x : α}
    (h : A[i]? = some x) : i < A.length := by
  rcases List.getElem?_eq_some.mp h with ⟨hlt, _⟩
  exact hlt

lemma mem_of_getElem?_eq_some {α : Type} {A : List α} {i : ℕ} {x : α}
    (h : A[i]? = some x) : x ∈ A := by
  rcases List.getElem?_eq_some.mp h with ⟨hlt, he⟩
  exact he ▸ List.getElem_mem hlt

lemma addNode_reflectionTriggered (t : SearchTrace) (d c : ℕ) (s : ℚ) :
    (t.addNode d c s).reflectionTriggered = t.reflectionTriggered := rfl

lemma safeScore_nonneg {α : Type} (value : α → Option ℚ) (r : α) :
    0 ≤ safeScore value r := by
  unfold safeScore
  cases value r with
  | none => norm_num
  | some s => exact le_max_left _ _

lemma safeScore_le_one {α : Type} (value : α → Option ℚ) (r : α) :
    safeScore value r ≤ 1 := by
  unfold safeScore
  cases value r with
  | none => norm_num
  | some s => exact max_le (by norm_num) (min_le_left _ _)

lemma backpropAux_length {α : Type} (fuel : ℕ) (A : List (Node α)) (i : ℕ)
    (v : ℚ) : (backpropAux fuel A i v).length = A.length := by
  induction fuel generalizing A i with
  | zero => rfl
  | succ fuel ih =>
    unfold backpropAux
    cases h : A[i]? with
    | none => rfl
    | some nd =>
      simp only []
      cases hp : nd.parent with
      | none => simp [List.length_set]
      | some p => simp [ih, List.length_set]

lemma backpropAux_skel {α : Type} (fuel : ℕ) (A : List (Node α)) (i : ℕ)
    (v : ℚ) (j : ℕ) :
    ((backpropAux fuel A i v)[j]?).map skel = (A[j]?).map skel := by
  induction fuel generalizing A i with
  | zero => rfl
  | succ fuel ih =>
    unfold backpropAux
    cases h : A[i]? with
    | none => rfl
    | some nd =>
      have hset : ∀ j : ℕ,
          ((A.set i
              { nd with visits := nd.visits + 1, value := nd.value + v })[j]?).map
            skel = (A[j]?).map skel := by
        intro j
        rcases eq_or_ne i j with rfl | hne
        · rw [List.getElem?_set_self', h]
          rfl
        · rw [List.getElem?_set_ne hne]
      simp only []
      cases hp : nd.parent with
      | none =>
        simp only [hp] at hset
        simpa using hset j
      | some p =>
        simp only [hp] at hset
        simpa [ih] using hset j

lemma backprop_length {α : Type} (A : List (Node α)) (i : ℕ) (v : ℚ) :
    (backprop A i v).length = A.length :=
  backpropAux_length _ _ _ _

lemma backprop_skel {α : Type} (A : List (Node α)) (i : ℕ) (v : ℚ) (j : ℕ) :
    ((backprop A i v)[j]?).map skel = (A[j]?).map skel :=
  backpropAux_skel _ _ _ _ _

lemma backpropAux_inv {α : Type} (fuel : ℕ) (A : List (Node α)) (i : ℕ)
    (v : ℚ) (hA : arenaInv A) (hv : 0 ≤ v) :
    arenaInv (backpropAux fuel A i v) := by
  induction fuel generalizing A i with
  | zero => exact hA
  | succ fuel ih =>
    unfold backpropAux
    cases h : A[i]? with
    | none => exact hA
    | some nd =>
      have hnd : nodeInv nd := hA nd (mem_of_getElem?_eq_some h)
      have hset : arenaInv
          (A.set i
            { nd with visits := nd.visits + 1, value := nd.value + v }) := by
        intro n hn
        rcases List.mem_or_eq_of_mem_set hn with hmem | rfl
        · exact hA n hmem
        · exact ⟨add_nonneg hnd.1 hv, hnd.2.1, by simp⟩
      simp only []
      cases hp : nd.parent with
      | none =>
        simp only [hp] at hset
        exact hset
      | some p =>
        simp only [hp] at hset
        exact ih _ _ hset

lemma backprop_inv {α : Type} (A : List (Node α)) (i : ℕ) (v : ℚ)
    (hA : arenaInv A) (hv : 0 ≤ v) : arenaInv (backprop A i v) :=
  backpropAux_inv _ _ _ _ hA hv

lemma scoreAt_nonneg {α : Type} {A : List (Node α)} (hA : arenaInv A)
    (i : ℕ) : 0 ≤ scoreAt A i := by
  unfold scoreAt
  cases h : A[i]? with
  | none => simp
  | some nd =>
    have := hA nd (mem_of_getElem?_eq_some h)
    simpa using this.2.1

lemma setReflection_length {α : Type} (A : List (Node α)) (i : ℕ)
    (r : String) : (setReflection A i r).length = A.length := by
  unfold setReflection
  cases A[i]? with
  | none => rfl
  | some nd => simp [List.length_set]

lemma setReflection_skel {α : Type} (A : List (Node α)) (i : ℕ) (r : String)
    (j : ℕ) : ((setReflection A i r)[j]?).map skel = (A[j]?).map skel := by
  unfold setReflection
  cases h : A[i]? with
  | none => rfl
  | some nd =>
    rcases eq_or_ne i j with rfl | hne
    · rw [List.getElem?_set_self', h]
      rfl
    · rw [List.getElem?_set_ne hne]

lemma setReflection_inv {α : Type} {A : List (Node α)} (hA : arenaInv A)
    (i : ℕ) (r : String) : arenaInv (setReflection A i r) := by
  unfold setReflection
  cases h : A[i]? with
  | none => exact hA
  | some nd =>
    intro n hn
    rcases List.mem_or_eq_of_mem_set hn with hmem | rfl
    · exact hA n hmem
    · have hnd : nodeInv nd := hA nd (mem_of_getElem?_eq_some h)
      exact ⟨hnd.1, hnd.2.1, hnd.2.2⟩

lemma append_inv {α : Type} {A : List (Node α)} {nd : Node α}
    (hA : arenaInv A) (hnd : nodeInv nd) : arenaInv (A ++ [nd]) := by
  intro n hn
  rcases List.mem_append.mp hn with hmem | hmem
  · exact hA n hmem
  · rw [List.mem_singleton.mp hmem]
    exact hnd

lemma reflectionLoop_best_none {α : Type} (cfg : Config) (env : Env α)
    (prompt : String) (ds : List ℕ) (st : SState α) (h : st.best = none) :
    reflectionLoop cfg env prompt ds st = .inr st := by
  induction ds with
  | nil => rfl
  | cons d ds ih =>
    unfold reflectionLoop reflectionRound
    rw [h]
    exact ih

lemma expand_agent_none {α : Type} (prompt : String) (n calls : ℕ) :
    expand (α := α) (fun _ _ => none) prompt n calls = ([], calls + n) := by
  simp [expand]

/-- C5: with an `agent_fn` that fails on every invocation, every depth-1
candidate is dropped, no node is ever created, and `search` returns
`(None, 0.0, trace)`; being a total function of its `Option`-valued oracles,
the model never propagates an `agent_fn`/`value_fn`/`reflect_fn` failure. -/
theorem search_returns_none_when_all_agent_calls_fail {α : Type} (cfg : Config)
    (value : α → Option ℚ) (reflect : Option α → ℚ → Option String)
    (prompt jobId : String) :
    (search cfg ⟨fun _ _ => none, value, reflect⟩ prompt jobId).result = none ∧
    (search cfg ⟨fun _ _ => none, value, reflect⟩ prompt jobId).score = 0 := by
  have h1 : search cfg ⟨fun _ _ => none, value, reflect⟩ prompt jobId =
      finalize { arena := [rootNode α], trace := initTrace jobId, best := none,
                 calls := 0 + cfg.nCandidates } := by
    unfold search
    rw [expand_agent_none]
    simp only [level1Loop]
    rw [reflectionLoop_best_none _ _ _ _ _ rfl]
  rw [h1]
  exact ⟨rfl, rfl⟩

/-- C4: `ucb1` with a parent returns infinity (modelled `none`) exactly when
the node's or the parent's visit count is zero; with both positive it returns
the finite value `value/visits + w * sqrt(ln(parent.visits)/visits)`. -/
theorem ucb1_with_parent_spec (visits pv : ℕ) (value w : ℝ) :
    ((visits = 0 ∨ pv = 0) → ucb1 visits value (some pv) w = none) ∧
    (0 < visits → 0 < pv →
      ucb1 visits value (some pv) w =
        some (value / visits + w * Real.sqrt (Real.log pv / visits))) := by
  constructor
  · rintro (rfl | rfl)
    · simp [ucb1]
    · by_cases hv : visits = 0 <;> simp [ucb1, hv]
  · intro h1 h2
    simp [ucb1, h1.ne', h2.ne']

theorem ucb1_with_parent_spec_witness :
    ucb1 0 1 (some 3) 1 = none ∧ ucb1 2 1 (some 0) 1 = none ∧
    ucb1 2 1 (some 3) 1 =
      some ((1 : ℝ) / (2 : ℕ) + 1 * Real.sqrt (Real.log (3 : ℕ) / (2 : ℕ))) :=
  ⟨(ucb1_with_parent_spec 0 3 1 1).1 (Or.inl rfl),
   (ucb1_with_parent_spec 2 0 1 1).1 (Or.inr rfl),
   (ucb1_with_parent_spec 2 3 1 1).2 (by norm_num) (by norm_num)⟩

/-- C10: `ucb1` on a parentless node with `visits = n > 0` substitutes the
node's own visit count for the missing parent count and returns the finite
value `value/n + w * sqrt(ln n / n)`. -/
theorem ucb1_no_parent_spec (n : ℕ) (value w : ℝ) (h : 0 < n) :
    ucb1 n value none w =
      some (value / n + w * Real.sqrt (Real.log n / n)) := by
  simp [ucb1, h.ne']

theorem ucb1_no_parent_spec_witness :
    ucb1 2 1 none 1 =
      some ((1 : ℝ) / (2 : ℕ) + 1 * Real.sqrt (Real.log (2 : ℕ) / (2 : ℕ))) :=
  ucb1_no_parent_spec 2 1 1 (by norm_num)

lemma backprop_root_bump {α : Type} (A : List (Node α)) (i : ℕ)
    (nd rt : Node α) (v : ℚ) (hi : A[i]? = some nd)
    (hpar : nd.parent = some 0) (hipos : 0 < i) (hrt : A[0]? = some rt)
    (hrtpar : rt.parent = none) :
    (backprop A i v)[0]? =
      some { rt with visits := rt.visits + 1, value := rt.value + v } := by
  obtain ⟨nst, npar, nvis, nval, nsc, nrefl, ndep⟩ := nd
  obtain ⟨rst, rpar, rvis, rval, rsc, rrefl, rdep⟩ := rt
  simp only [] at hpar hrtpar
  subst hpar
  subst hrtpar
  have hlt := lt_length_of_getElem?_eq_some hi
  obtain ⟨k, hk⟩ : ∃ k, A.length = k + 2 := ⟨A.length - 2, by omega⟩
  have hne : i ≠ 0 := hipos.ne'
  unfold backprop
  rw [hk]
  unfold backpropAux
  rw [hi]
  simp only []
  have h0 : (A.set i
      ⟨nst, some 0, nvis + 1, nval + v, nsc, nrefl, ndep⟩)[0]? =
      some ⟨rst, none, rvis, rval, rsc, rrefl, rdep⟩ := by
    rw [List.getElem?_set_ne hne]
    exact hrt
  unfold backpropAux
  rw [h0]
  simp only []
  rw [List.getElem?_set_self', h0]
  rfl

lemma level1Loop_early {α : Type} (cfg : Config) (value : α → Option ℚ)
    (c : α) (post : List α) :
    ∀ (pre : List α) (idx : ℕ) (st : SState α),
      (∀ x ∈ pre, safeScore value x < cfg.qualityThreshold) →
      cfg.qualityThreshold ≤ safeScore value c →
      (∃ rt, st.arena[0]? = some rt ∧ rt.parent = none) →
      0 < st.arena.length →
      ∃ res, level1Loop cfg value (pre ++ c :: post) idx st = .inl res ∧
        res.result = some c ∧ res.score = safeScore value c ∧
        res.trace.reflectionTriggered = st.trace.reflectionTriggered ∧
        res.arena.length = st.arena.length + (pre.length + 1) ∧
        res.arena[0]? = (st.arena[0]?).map fun rt =>
          { rt with visits := rt.visits + 1,
                    value := rt.value + safeScore value c } := by
  intro pre
  induction pre with
  | nil =>
    intro idx st hpre hc hroot hlen
    obtain ⟨rt, hrt, hrtpar⟩ := hroot
    have heq : level1Loop cfg value ([] ++ c :: post) idx st = .inl
        { result := some c, score := safeScore value c,
          trace := st.trace.addNode 1 (idx + 1) (safeScore value c),
          arena := backprop
            (st.arena ++
              [{ state := some c, parent := some 0, visits := 1,
                 value := safeScore value c, score := safeScore value c,
                 reflection := "", depth := 1 }])
            st.arena.length (safeScore value c) } := by
      show level1Loop cfg value (c :: post) idx st = _
      unfold level1Loop
      simp only []
      rw [if_pos hc]
    refine ⟨_, heq, rfl, rfl, rfl, ?_, ?_⟩
    · rw [backprop_length]
      simp
    · rw [hrt]
      exact backprop_root_bump (st.arena ++ [_]) st.arena.length _ rt _
        (List.getElem?_concat_length _ _) rfl hlen
        (by rw [List.getElem?_append_left hlen]; exact hrt) hrtpar
  | cons x pre ih =>
    intro idx st hpre hc hroot hlen
    obtain ⟨rt, hrt, hrtpar⟩ := hroot
    have hx : safeScore value x < cfg.qualityThreshold :=
      hpre x (List.mem_cons_self _ _)
    have hstep : level1Loop cfg value ((x :: pre) ++ c :: post) idx st =
        level1Loop cfg value (pre ++ c :: post) (idx + 1)
          { arena := st.arena ++
              [{ state := some x, parent := some 0, visits := 1,
                 value := safeScore value x, score := safeScore value x,
                 reflection := "", depth := 1 }]
            trace := st.trace.addNode 1 (idx + 1) (safeScore value x)
            best := match st.best with
              | none => some st.arena.length
              | some b => if scoreAt st.arena b < safeScore value x then
                  some st.arena.length else some b
            calls := st.calls } := by
      show level1Loop cfg value (x :: (pre ++ c :: post)) idx st = _
      conv_lhs => unfold level1Loop
      simp only []
      rw [if_neg (not_le.mpr hx)]
    rw [hstep]
    obtain ⟨res, hres, h1, h2, h3, h4, h5⟩ := ih (idx + 1)
      { arena := st.arena ++
          [{ state := some x, parent := some 0, visits := 1,
             value := safeScore value x, score := safeScore value x,
             reflection := "", depth := 1 }]
        trace := st.trace.addNode 1 (idx + 1) (safeScore value x)
        best := match st.best with
          | none => some st.arena.length
          | some b => if scoreAt st.arena b < safeScore value x then
              some st.arena.length else some b
        calls := st.calls }
      (fun y hy => hpre y (List.mem_cons_of_mem _ hy)) hc
      ⟨rt, by
        rw [List.getElem?_append_left hlen]
        exact hrt, hrtpar⟩
      (by simp only [List.length_append]; omega)
    refine ⟨res, hres, h1, h2, ?_, ?_, ?_⟩
    · rw [h3]
      rfl
    · rw [h4]
      simp only [List.length_append, List.length_cons]
      simp
      omega
    · rw [h5]
      simp only []
      rw [List.getElem?_append_left hlen]

/-- C1: if some depth-1 candidate scores at or above `quality_threshold`,
`search` returns exactly the first candidate in generation order whose score
crosses it (`pre`/`c`/`post` split the surviving depth-1 candidates, all of
`pre` scoring below the threshold, `c` at or above it — not necessarily the
batch maximum), with `reflection_triggered = false`, after backpropagating
that node's score to the root (the root's statistics become
`visits = 1, value = score`) and before any reflection or deeper expansion
executes (the final tree holds only the root and the first `pre.length + 1`
depth-1 candidates). -/
theorem search_early_exit_first_crossing {α : Type} (cfg : Config)
    (env : Env α) (prompt jobId : String) (pre post : List α) (c : α)
    (hsplit : (expand env.agent prompt cfg.nCandidates 0).1 = pre ++ c :: post)
    (hpre : ∀ x ∈ pre, safeScore env.value x < cfg.qualityThreshold)
    (hc : cfg.qualityThreshold ≤ safeScore env.value c) :
    (search cfg env prompt jobId).result = some c ∧
    (search cfg env prompt jobId).score = safeScore env.value c ∧
    (search cfg env prompt jobId).trace.reflectionTriggered = false ∧
    (search cfg env prompt jobId).arena.length = pre.length + 2 ∧
    ((search cfg env prompt jobId).arena[0]?).map
      (fun rt => (rt.visits, rt.value)) =
      some (1, safeScore env.value c) := by
  have hE : expand env.agent prompt cfg.nCandidates 0 =
      (pre ++ c :: post, 0 + cfg.nCandidates) := by
    rw [← hsplit]
    rfl
  obtain ⟨res, hres, h1, h2, h3, h4, h5⟩ :=
    level1Loop_early cfg env.value c post pre 0
      { arena := [rootNode α], trace := initTrace jobId, best := none,
        calls := 0 + cfg.nCandidates }
      hpre hc ⟨rootNode α, rfl, rfl⟩ (by simp)
  have hfin : search cfg env prompt jobId = res := by
    unfold search
    rw [hE]
    simp only []
    rw [hres]
  rw [hfin]
  refine ⟨h1, h2, by rw [h3]; rfl, ?_, ?_⟩
  · rw [h4]
    simp only [List.length_singleton]
    omega
  · rw [h5]
    simp [rootNode]

theorem search_early_exit_first_crossing_witness :
    (expand envW.agent "p" cfgW.nCandidates 0).1 = [] ++ 0 :: [1, 2] ∧
    (search cfgW envW "p" "j").result = some 0 ∧
    (search cfgW envW "p" "j").trace.reflectionTriggered = false :=
  ⟨by decide,
   (search_early_exit_first_crossing cfgW envW "p" "j" [] [1, 2] 0
      (by decide) (by simp) (by decide)).1,
   (search_early_exit_first_crossing cfgW envW "p" "j" [] [1, 2] 0
      (by decide) (by simp) (by decide)).2.2.1⟩

lemma skel_eq_parts {α : Type} {n m : Node α} (h : skel n = skel m) :
    n.state = m.state ∧ n.parent = m.parent ∧ n.score = m.score ∧
      n.depth = m.depth := by
  unfold skel at h
  exact ⟨congrArg Prod.fst h, congrArg (fun p => p.2.1) h,
    congrArg (fun p => p.2.2.1) h, congrArg (fun p => p.2.2.2) h⟩

lemma rootDP_of_skel {α : Type} {A A' : List (Node α)}
    (h : (A'[0]?).map skel = (A[0]?).map skel) (hA : rootDP A) :
    rootDP A' := by
  unfold rootDP at hA ⊢
  cases hA' : A[0]? with
  | none => rw [hA'] at hA; simp at hA
  | some m =>
    rw [hA'] at hA h
    cases h0 : A'[0]? with
    | none => rw [h0] at h; simp at h
    | some n =>
      rw [h0] at h
      simp only [Option.map_some'] at h hA ⊢
      obtain ⟨_, hp, _, hd⟩ := skel_eq_parts (Option.some.inj h)
      rw [hd, hp]
      exact hA

lemma childDepthInv_of_skel {α : Type} {A A' : List (Node α)}
    (h : ∀ j : ℕ, (A'[j]?).map skel = (A[j]?).map skel)
    (hA : childDepthInv A) : childDepthInv A' := by
  intro n hn hp
  obtain ⟨j, hj⟩ := List.mem_iff_getElem?.mp hn
  have hh := h j
  rw [hj] at hh
  cases hA' : A[j]? with
  | none => rw [hA'] at hh; simp at hh
  | some m =>
    rw [hA'] at hh
    simp only [Option.map_some'] at hh
    obtain ⟨_, hpar, _, hd⟩ := skel_eq_parts (Option.some.inj hh)
    rw [hd]
    exact hA m (mem_of_getElem?_eq_some hA') (hpar ▸ hp)

lemma rootDP_backprop {α : Type} {A : List (Node α)} (hA : rootDP A)
    (i : ℕ) (v : ℚ) : rootDP (backprop A i v) :=
  rootDP_of_skel (backprop_skel A i v 0) hA

lemma childDepthInv_backprop {α : Type} {A : List (Node α)}
    (hA : childDepthInv A) (i : ℕ) (v : ℚ) :
    childDepthInv (backprop A i v) :=
  childDepthInv_of_skel (backprop_skel A i v) hA

lemma rootDP_setReflection {α : Type} {A : List (Node α)} (hA : rootDP A)
    (i : ℕ) (r : String) : rootDP (setReflection A i r) :=
  rootDP_of_skel (setReflection_skel A i r 0) hA

lemma childDepthInv_setReflection {α : Type} {A : List (Node α)}
    (hA : childDepthInv A) (i : ℕ) (r : String) :
    childDepthInv (setReflection A i r) :=
  childDepthInv_of_skel (setReflection_skel A i r) hA

lemma rootDP_pos {α : Type} {A : List (Node α)} (hA : rootDP A) :
    0 < A.length := by
  unfold rootDP at hA
  cases h : A[0]? with
  | none => rw [h] at hA; simp at hA
  | some m => exact lt_length_of_getElem?_eq_some h

lemma rootDP_append {α : Type} {A : List (Node α)} (hA : rootDP A)
    (nd : Node α) : rootDP (A ++ [nd]) := by
  unfold rootDP at hA ⊢
  rw [List.getElem?_append_left (rootDP_pos hA)]
  exact hA

lemma childDepthInv_append {α : Type} {A : List (Node α)} {nd : Node α}
    (hA : childDepthInv A) (hnd : nd.parent = some 0 → nd.depth = 1) :
    childDepthInv (A ++ [nd]) := by
  intro n hn
  rcases List.mem_append.mp hn with hmem | hmem
  · exact hA n hmem
  · rw [List.mem_singleton.mp hmem]
    exact hnd

lemma level1Loop_outOk {α : Type} (cfg : Config) (value : α → Option ℚ) :
    ∀ (rs : List α) (idx : ℕ) (st : SState α), stInv st →
      outOk (level1Loop cfg value rs idx st)
  | [], idx, st, hst => hst
  | r :: rest, idx, st, hst => by
    obtain ⟨hlen, hdp, hcd, hbest⟩ := hst
    by_cases hcond : cfg.qualityThreshold ≤ safeScore value r
    · have heq : level1Loop cfg value (r :: rest) idx st = .inl
          { result := some r, score := safeScore value r,
            trace := st.trace.addNode 1 (idx + 1) (safeScore value r),
            arena := backprop
              (st.arena ++
                [{ state := some r, parent := some 0, visits := 1,
                   value := safeScore value r, score := safeScore value r,
                   reflection := "", depth := 1 }])
              st.arena.length (safeScore value r) } := by
        conv_lhs => unfold level1Loop
        simp only []
        rw [if_pos hcond]
      rw [heq]
      exact ⟨rootDP_backprop (rootDP_append hdp _) _ _,
        childDepthInv_backprop (childDepthInv_append hcd fun _ => rfl) _ _⟩
    · have heq : level1Loop cfg value (r :: rest) idx st =
          level1Loop cfg value rest (idx + 1)
            { arena := st.arena ++
                [{ state := some r, parent := some 0, visits := 1,
                   value := safeScore value r, score := safeScore value r,
                   reflection := "", depth := 1 }]
              trace := st.trace.addNode 1 (idx + 1) (safeScore value r)
              best := match st.best with
                | none => some st.arena.length
                | some b => if scoreAt st.arena b < safeScore value r then
                    some st.arena.length else some b
              calls := st.calls } := by
        conv_lhs => unfold level1Loop
        simp only []
        rw [if_neg hcond]
      rw [heq]
      refine level1Loop_outOk cfg value rest (idx + 1) _
        ⟨by simp only [List.length_append]; omega,
         rootDP_append hdp _, childDepthInv_append hcd fun _ => rfl, ?_⟩
      intro b hb
      simp only [] at hb
      cases hsb : st.best with
      | none =>
        rw [hsb] at hb
        simp only [Option.some.injEq] at hb
        omega
      | some b0 =>
        rw [hsb] at hb
        simp only [] at hb
        by_cases hlt : scoreAt st.arena b0 < safeScore value r
        · rw [if_pos hlt] at hb
          simp only [Option.some.injEq] at hb
          omega
        · rw [if_neg hlt] at hb
          simp only [Option.some.injEq] at hb
          exact hb ▸ hbest b0 hsb

lemma refineLoop_outOk {α : Type} (cfg : Config) (value : α → Option ℚ)
    (d : ℕ) : ∀ (rs : List α) (idx b : ℕ) (st : SState α),
      1 ≤ b → rootDP st.arena → childDepthInv st.arena →
      outOk (refineLoop cfg value d rs idx b st)
  | [], idx, b, st, hb, hdp, hcd => by
    have heq : refineLoop cfg value d [] idx b st =
        .inr { st with best := some b } := rfl
    rw [heq]
    refine ⟨rootDP_pos hdp, hdp, hcd, ?_⟩
    intro b' hb'
    simp only [Option.some.injEq] at hb'
    omega
  | r :: rest, idx, b, st, hb, hdp, hcd => by
    have hbne : some b = some 0 → False := by
      intro hp
      simp only [Option.some.injEq] at hp
      omega
    by_cases hcond : cfg.qualityThreshold ≤ safeScore value r
    · have heq : refineLoop cfg value d (r :: rest) idx b st = .inl
          { result := some r, score := safeScore value r,
            trace := st.trace.addNode d (idx + 1) (safeScore value r),
            arena := backprop
              (st.arena ++
                [{ state := some r, parent := some b, visits := 1,
                   value := safeScore value r, score := safeScore value r,
                   reflection := "", depth := d }])
              st.arena.length (safeScore value r) } := by
        conv_lhs => unfold refineLoop
        simp only []
        rw [if_pos hcond]
      rw [heq]
      exact ⟨rootDP_backprop (rootDP_append hdp _) _ _,
        childDepthInv_backprop
          (childDepthInv_append hcd fun hp => absurd hp hbne) _ _⟩
    · have heq : refineLoop cfg value d (r :: rest) idx b st =
          refineLoop cfg value d rest (idx + 1)
            (if scoreAt st.arena b < safeScore value r then st.arena.length
              else b)
            { st with
              arena := st.arena ++
                [{ state := some r, parent := some b, visits := 1,
                   value := safeScore value r, score := safeScore value r,
                   reflection := "", depth := d }]
              trace := st.trace.addNode d (idx + 1) (safeScore value r) } := by
        conv_lhs => unfold refineLoop
        simp only []
        rw [if_neg hcond]
      rw [heq]
      refine refineLoop_outOk cfg value d rest (idx + 1) _ _ ?_
        (rootDP_append hdp _)
        (childDepthInv_append hcd fun hp => absurd hp hbne)
      by_cases hlt : scoreAt st.arena b < safeScore value r
      · rw [if_pos hlt]
        exact rootDP_pos hdp
      · rw [if_neg hlt]
        exact hb

lemma reflectionRound_outOk {α : Type} (cfg : Config) (env : Env α)
    (prompt : String) (d : ℕ) (st : SState α) (hst : stInv st) :
    outOk (reflectionRound cfg env prompt d st) := by
  obtain ⟨hlen, hdp, hcd, hbest⟩ := hst
  unfold reflectionRound
  cases hsb : st.best with
  | none => exact ⟨hlen, hdp, hcd, fun b hb => hbest b (hsb ▸ hb)⟩
  | some b =>
    simp only []
    exact refineLoop_outOk cfg env.value d _ 0 b _ (hbest b hsb)
      (rootDP_setReflection hdp _ _) (childDepthInv_setReflection hcd _ _)

lemma reflectionLoop_outOk {α : Type} (cfg : Config) (env : Env α)
    (prompt : String) : ∀ (ds : List ℕ) (st : SState α), stInv st →
      outOk (reflectionLoop cfg env prompt ds st)
  | [], _, hst => hst
  | d :: ds, st, hst => by
    have h := reflectionRound_outOk cfg env prompt d st hst
    unfold reflectionLoop
    cases hr : reflectionRound cfg env prompt d st with
    | inl early =>
      rw [hr] at h
      exact h
    | inr st' =>
      rw [hr] at h
      exact reflectionLoop_outOk cfg env prompt ds st' h

lemma finalize_dp {α : Type} (st : SState α) (hst : stInv st) :
    rootDP (finalize st).arena ∧ childDepthInv (finalize st).arena := by
  obtain ⟨hlen, hdp, hcd, hbest⟩ := hst
  unfold finalize
  cases hsb : st.best with
  | none => exact ⟨hdp, hcd⟩
  | some b =>
    simp only []
    exact ⟨rootDP_backprop hdp _ _, childDepthInv_backprop hcd _ _⟩

/-- C2 (corrected, amended part): the root always sits at index 0 with depth
0 and no parent, and every child of the root has depth field 1 — but a node
created in a reflection round carries the round's loop depth, which need not
be its parent's depth + 1 (see the counterexample), so the per-node statement
is restricted to the root's children. -/
theorem search_child_depth_amended {α : Type} (cfg : Config) (env : Env α)
    (prompt jobId : String) :
    ((search cfg env prompt jobId).arena[0]?).map
        (fun n => (n.depth, n.parent)) = some (0, none) ∧
    ∀ n ∈ (search cfg env prompt jobId).arena, n.parent = some 0 →
      n.depth = 1 := by
  have hst0 : stInv (α := α)
      { arena := [rootNode α], trace := initTrace jobId, best := none,
        calls := (expand env.agent prompt cfg.nCandidates 0).2 } := by
    refine ⟨by simp, rfl, ?_, ?_⟩
    · intro n hn hp
      rw [List.mem_singleton.mp hn] at hp
      simp [rootNode] at hp
    · intro b hb
      simp at hb
  unfold search
  rcases hE : expand env.agent prompt cfg.nCandidates 0 with ⟨results, calls⟩
  simp only []
  have h1 := level1Loop_outOk cfg env.value results 0
    { arena := [rootNode α], trace := initTrace jobId, best := none,
      calls := calls } (by rw [hE] at hst0; exact hst0)
  cases hl : level1Loop cfg env.value results 0
      { arena := [rootNode α], trace := initTrace jobId, best := none,
        calls := calls } with
  | inl early =>
    rw [hl] at h1
    exact h1
  | inr stx =>
    rw [hl] at h1
    simp only []
    have h2 := reflectionLoop_outOk cfg env prompt (roundDepths cfg.maxDepth)
      stx h1
    cases hr : reflectionLoop cfg env prompt (roundDepths cfg.maxDepth) stx with
    | inl early =>
      rw [hr] at h2
      exact h2
    | inr st' =>
      rw [hr] at h2
      exact finalize_dp st' h2

/-- C2 (counterexample): in the fixture search, the second candidate of the
depth-2 reflection round (arena index 3) is attached to its sibling at index
2 — both carry depth field 2, so the child's depth is not its parent's depth
+ 1, and the parent is not the root. -/
theorem search_child_depth_counterexample :
    (searchS.arena[3]?).map Node.parent = some (some 2) ∧
    (searchS.arena[2]?).map Node.depth = some 2 ∧
    (searchS.arena[3]?).map Node.depth = some 2 := by
  decide

theorem search_child_depth_amended_witness :
    (((search cfgS envS "p" "job").arena[0]?).map
        (fun n => (n.depth, n.parent)) = some (0, none)) ∧
    (∀ n ∈ (search cfgS envS "p" "job").arena, n.parent = some 0 →
      n.depth = 1) :=
  search_child_depth_amended cfgS envS "p" "job"

lemma backpropAux_reflection {α : Type} (fuel : ℕ) (A : List (Node α))
    (i : ℕ) (v : ℚ) (j : ℕ) :
    ((backpropAux fuel A i v)[j]?).map Node.reflection =
      (A[j]?).map Node.reflection := by
  induction fuel generalizing A i with
  | zero => rfl
  | succ fuel ih =>
    unfold backpropAux
    cases h : A[i]? with
    | none => rfl
    | some nd =>
      have hset : ((A.set i
          { nd with visits := nd.visits + 1, value := nd.value + v })[j]?).map
            Node.reflection = (A[j]?).map Node.reflection := by
        rcases eq_or_ne i j with rfl | hne
        · rw [List.getElem?_set_self', h]
          rfl
        · rw [List.getElem?_set_ne hne]
      simp only []
      cases hp : nd.parent with
      | none =>
        simp only [hp] at hset
        simpa using hset
      | some p =>
        simp only [hp] at hset
        simpa [ih] using hset

lemma backprop_reflection {α : Type} (A : List (Node α)) (i : ℕ) (v : ℚ)
    (j : ℕ) :
    ((backprop A i v)[j]?).map Node.reflection =
      (A[j]?).map Node.reflection :=
  backpropAux_reflection _ _ _ _ _

lemma attachedToRound_of_le {α : Type} {baseLen b0 : ℕ} {A : List (Node α)}
    (hlen : A.length ≤ baseLen) : attachedToRound baseLen b0 A := by
  intro j n hj hn
  have := lt_length_of_getElem?_eq_some hn
  omega

lemma attachedToRound_backprop {α : Type} {baseLen b0 : ℕ}
    {A : List (Node α)} (hA : attachedToRound baseLen b0 A) (i : ℕ)
    (v : ℚ) : attachedToRound baseLen b0 (backprop A i v) := by
  intro j n hj hn
  have h := backprop_skel A i v j
  rw [hn] at h
  cases hA' : A[j]? with
  | none =>
    rw [hA'] at h
    simp at h
  | some m =>
    rw [hA'] at h
    simp only [Option.map_some'] at h
    obtain ⟨_, hpar, _, _⟩ := skel_eq_parts (Option.some.inj h)
    rw [hpar]
    exact hA j m hj hA'

lemma attachedToRound_append {α : Type} {baseLen b0 : ℕ}
    {A : List (Node α)} {nd : Node α} (hA : attachedToRound baseLen b0 A)
    (hnd : nd.parent = some b0 ∨
      ∃ p, nd.parent = some p ∧ baseLen ≤ p ∧ p < A.length) :
    attachedToRound baseLen b0 (A ++ [nd]) := by
  intro j n hj hn
  rcases lt_trichotomy j A.length with hlt | heq | hgt
  · rw [List.getElem?_append_left hlt] at hn
    exact hA j n hj hn
  · subst heq
    rw [List.getElem?_concat_length] at hn
    rw [← Option.some.inj hn]
    rcases hnd with h | ⟨p, hp, h1, h2⟩
    · exact Or.inl h
    · exact Or.inr ⟨p, hp, h1, by omega⟩
  · rw [List.getElem?_append_right (by omega)] at hn
    have := lt_length_of_getElem?_eq_some hn
    simp only [List.length_singleton] at this
    omega

lemma refineLoop_attached {α : Type} (cfg : Config) (value : α → Option ℚ)
    (d baseLen b0 : ℕ) :
    ∀ (rs : List α) (idx b : ℕ) (st : SState α),
      baseLen ≤ st.arena.length →
      (b = b0 ∨ (baseLen ≤ b ∧ b < st.arena.length)) →
      attachedToRound baseLen b0 st.arena →
      attachedToRound baseLen b0
        (outArena (refineLoop cfg value d rs idx b st))
  | [], idx, b, st, hlen, hb, hA => hA
  | r :: rest, idx, b, st, hlen, hb, hA => by
    have hnd : (some b : Option ℕ) = some b0 ∨
        ∃ p, (some b : Option ℕ) = some p ∧ baseLen ≤ p ∧
          p < st.arena.length := by
      rcases hb with rfl | ⟨h1, h2⟩
      · exact Or.inl rfl
      · exact Or.inr ⟨b, rfl, h1, h2⟩
    by_cases hcond : cfg.qualityThreshold ≤ safeScore value r
    · have heq : refineLoop cfg value d (r :: rest) idx b st = .inl
          { result := some r, score := safeScore value r,
            trace := st.trace.addNode d (idx + 1) (safeScore value r),
            arena := backprop
              (st.arena ++
                [{ state := some r, parent := some b, visits := 1,
                   value := safeScore value r, score := safeScore value r,
                   reflection := "", depth := d }])
              st.arena.length (safeScore value r) } := by
        conv_lhs => unfold refineLoop
        simp only []
        rw [if_pos hcond]
      rw [heq]
      exact attachedToRound_backprop (attachedToRound_append hA hnd) _ _
    · have heq : refineLoop cfg value d (r :: rest) idx b st =
          refineLoop cfg value d rest (idx + 1)
            (if scoreAt st.arena b < safeScore value r then st.arena.length
              else b)
            { st with
              arena := st.arena ++
                [{ state := some r, parent := some b, visits := 1,
                   value := safeScore value r, score := safeScore value r,
                   reflection := "", depth := d }]
              trace := st.trace.addNode d (idx + 1) (safeScore value r) } := by
        conv_lhs => unfold refineLoop
        simp only []
        rw [if_neg hcond]
      rw [heq]
      refine refineLoop_attached cfg value d baseLen b0 rest (idx + 1) _ _
        (by simp only [List.length_append, List.length_singleton]; omega)
        ?_ (attachedToRound_append hA hnd)
      by_cases hlt : scoreAt st.arena b < safeScore value r
      · rw [if_pos hlt]
        refine Or.inr ⟨hlen, ?_⟩
        simp only [List.length_append, List.length_singleton]
        omega
      · rw [if_neg hlt]
        rcases hb with rfl | ⟨h1, h2⟩
        · exact Or.inl rfl
        · refine Or.inr ⟨h1, ?_⟩
          simp only [List.length_append, List.length_singleton]
          omega

lemma refineLoop_prefix_reflection {α : Type} (cfg : Config)
    (value : α → Option ℚ) (d : ℕ) :
    ∀ (rs : List α) (idx b : ℕ) (st : SState α) (j : ℕ),
      j < st.arena.length →
      ((outArena (refineLoop cfg value d rs idx b st))[j]?).map
        Node.reflection = (st.arena[j]?).map Node.reflection
  | [], idx, b, st, j, hj => rfl
  | r :: rest, idx, b, st, j, hj => by
    by_cases hcond : cfg.qualityThreshold ≤ safeScore value r
    · have heq : refineLoop cfg value d (r :: rest) idx b st = .inl
          { result := some r, score := safeScore value r,
            trace := st.trace.addNode d (idx + 1) (safeScore value r),
            arena := backprop
              (st.arena ++
                [{ state := some r, parent := some b, visits := 1,
                   value := safeScore value r, score := safeScore value r,
                   reflection := "", depth := d }])
              st.arena.length (safeScore value r) } := by
        conv_lhs => unfold refineLoop
        simp only []
        rw [if_pos hcond]
      rw [heq]
      show ((backprop _ _ _)[j]?).map Node.reflection = _
      rw [backprop_reflection, List.getElem?_append_left hj]
    · have heq : refineLoop cfg value d (r :: rest) idx b st =
          refineLoop cfg value d rest (idx + 1)
            (if scoreAt st.arena b < safeScore value r then st.arena.length
              else b)
            { st with
              arena := st.arena ++
                [{ state := some r, parent := some b, visits := 1,
                   value := safeScore value r, score := safeScore value r,
                   reflection := "", depth := d }]
              trace := st.trace.addNode d (idx + 1) (safeScore value r) } := by
        conv_lhs => unfold refineLoop
        simp only []
        rw [if_neg hcond]
      rw [heq]
      rw [refineLoop_prefix_reflection cfg value d rest (idx + 1) _ _ j
        (by simp only [List.length_append, List.length_singleton]; omega)]
      simp only []
      rw [List.getElem?_append_left hj]

lemma setReflection_get_self {α : Type} {A : List (Node α)} {b : ℕ}
    (hb : b < A.length) (r : String) :
    ((setReflection A b r)[b]?).map Node.reflection = some r := by
  unfold setReflection
  cases h : A[b]? with
  | none =>
    rw [List.getElem?_eq_getElem hb] at h
    exact absurd h (by simp)
  | some nd =>
    rw [List.getElem?_set_self', h]
    rfl

/-- C3 (corrected, amended part): in a reflection round the critique is
stored on the round-start `best_node` (index `b`), and every node created in
the round is attached either to `b` or to a node created earlier in the same
round — because `best_node` moves as soon as a candidate strictly improves on
it, later candidates of the round may hang off an earlier sibling instead of
the round-start node (see the counterexample). -/
theorem reflectionRound_attachment_amended {α : Type} (cfg : Config)
    (env : Env α) (prompt : String) (d : ℕ) (st : SState α) (b : ℕ)
    (hb : st.best = some b) (hlen : b < st.arena.length) :
    attachedToRound st.arena.length b
      (outArena (reflectionRound cfg env prompt d st)) ∧
    ((outArena (reflectionRound cfg env prompt d st))[b]?).map
        Node.reflection =
      some (safeReflect env.reflect (stateAt st.arena b)
        (scoreAt st.arena b)) := by
  unfold reflectionRound
  rw [hb]
  simp only []
  constructor
  · exact refineLoop_attached cfg env.value d st.arena.length b _ 0 b _
      (by rw [setReflection_length]) (Or.inl rfl)
      (attachedToRound_of_le (by rw [setReflection_length]))
  · rw [refineLoop_prefix_reflection cfg env.value d _ 0 b _ b
      (by rw [setReflection_length]; exact hlen)]
    exact setReflection_get_self hlen _

/-- C3 (counterexample): in the fixture search, the depth-2 reflection round
stores its critique on node 1 (the round-start best node), yet its second
expanded candidate (index 3) has node 2 — the sibling created earlier in the
same round (itself a child of node 1) — as parent, not node 1. -/
theorem reflectionRound_attachment_counterexample :
    (searchS.arena[1]?).map Node.reflection = some "r" ∧
    (searchS.arena[2]?).map Node.reflection = some "" ∧
    (searchS.arena[2]?).map Node.parent = some (some 1) ∧
    (searchS.arena[3]?).map Node.parent = some (some 2) ∧
    searchS.arena.length = 4 := by
  decide

theorem reflectionRound_attachment_amended_witness :
    attachedToRound stS1.arena.length 1
      (outArena (reflectionRound cfgS envS "p" 2 stS1)) ∧
    ((outArena (reflectionRound cfgS envS "p" 2 stS1))[1]?).map
        Node.reflection =
      some (safeReflect envS.reflect (stateAt stS1.arena 1)
        (scoreAt stS1.arena 1)) :=
  reflectionRound_attachment_amended cfgS envS "p" 2 stS1 1 rfl (by decide)

lemma level1Loop_valInv {α : Type} (cfg : Config) (value : α → Option ℚ) :
    ∀ (rs : List α) (idx : ℕ) (st : SState α), arenaInv st.arena →
      outValInv (level1Loop cfg value rs idx st)
  | [], idx, st, hst => hst
  | r :: rest, idx, st, hst => by
    have hnode : nodeInv (⟨some r, some 0, 1, safeScore value r,
        safeScore value r, "", 1⟩ : Node α) :=
      ⟨safeScore_nonneg value r, safeScore_nonneg value r, by simp⟩
    by_cases hcond : cfg.qualityThreshold ≤ safeScore value r
    · have heq : level1Loop cfg value (r :: rest) idx st = .inl
          { result := some r, score := safeScore value r,
            trace := st.trace.addNode 1 (idx + 1) (safeScore value r),
            arena := backprop
              (st.arena ++
                [{ state := some r, parent := some 0, visits := 1,
                   value := safeScore value r, score := safeScore value r,
                   reflection := "", depth := 1 }])
              st.arena.length (safeScore value r) } := by
        conv_lhs => unfold level1Loop
        simp only []
        rw [if_pos hcond]
      rw [heq]
      exact backprop_inv _ _ _ (append_inv hst hnode)
        (safeScore_nonneg value r)
    · have heq : level1Loop cfg value (r :: rest) idx st =
          level1Loop cfg value rest (idx + 1)
            { arena := st.arena ++
                [{ state := some r, parent := some 0, visits := 1,
                   value := safeScore value r, score := safeScore value r,
                   reflection := "", depth := 1 }]
              trace := st.trace.addNode 1 (idx + 1) (safeScore value r)
              best := match st.best with
                | none => some st.arena.length
                | some b => if scoreAt st.arena b < safeScore value r then
                    some st.arena.length else some b
              calls := st.calls } := by
        conv_lhs => unfold level1Loop
        simp only []
        rw [if_neg hcond]
      rw [heq]
      exact level1Loop_valInv cfg value rest (idx + 1) _
        (append_inv hst hnode)

lemma refineLoop_valInv {α : Type} (cfg : Config) (value : α → Option ℚ)
    (d : ℕ) : ∀ (rs : List α) (idx b : ℕ) (st : SState α),
      arenaInv st.arena → outValInv (refineLoop cfg value d rs idx b st)
  | [], idx, b, st, hst => hst
  | r :: rest, idx, b, st, hst => by
    have hnode : nodeInv (⟨some r, some b, 1, safeScore value r,
        safeScore value r, "", d⟩ : Node α) :=
      ⟨safeScore_nonneg value r, safeScore_nonneg value r, by simp⟩
    by_cases hcond : cfg.qualityThreshold ≤ safeScore value r
    · have heq : refineLoop cfg value d (r :: rest) idx b st = .inl
          { result := some r, score := safeScore value r,
            trace := st.trace.addNode d (idx + 1) (safeScore value r),
            arena := backprop
              (st.arena ++
                [{ state := some r, parent := some b, visits := 1,
                   value := safeScore value r, score := safeScore value r,
                   reflection := "", depth := d }])
              st.arena.length (safeScore value r) } := by
        conv_lhs => unfold refineLoop
        simp only []
        rw [if_pos hcond]
      rw [heq]
      exact backprop_inv _ _ _ (append_inv hst hnode)
        (safeScore_nonneg value r)
    · have heq : refineLoop cfg value d (r :: rest) idx b st =
          refineLoop cfg value d rest (idx + 1)
            (if scoreAt st.arena b < safeScore value r then st.arena.length
              else b)
            { st with
              arena := st.arena ++
                [{ state := some r, parent := some b, visits := 1,
                   value := safeScore value r, score := safeScore value r,
                   reflection := "", depth := d }]
              trace := st.trace.addNode d (idx + 1) (safeScore value r) } := by
        conv_lhs => unfold refineLoop
        simp only []
        rw [if_neg hcond]
      rw [heq]
      exact refineLoop_valInv cfg value d rest (idx + 1) _ _
        (append_inv hst hnode)

lemma reflectionRound_valInv {α : Type} (cfg : Config) (env : Env α)
    (prompt : String) (d : ℕ) (st : SState α) (hst : arenaInv st.arena) :
    outValInv (reflectionRound cfg env prompt d st) := by
  unfold reflectionRound
  cases hsb : st.best with
  | none => exact hst
  | some b =>
    simp only []
    exact refineLoop_valInv cfg env.value d _ 0 b _
      (setReflection_inv hst _ _)

lemma reflectionLoop_valInv {α : Type} (cfg : Config) (env : Env α)
    (prompt : String) : ∀ (ds : List ℕ) (st : SState α),
      arenaInv st.arena → outValInv (reflectionLoop cfg env prompt ds st)
  | [], _, hst => hst
  | d :: ds, st, hst => by
    have h := reflectionRound_valInv cfg env prompt d st hst
    unfold reflectionLoop
    cases hr : reflectionRound cfg env prompt d st with
    | inl early =>
      rw [hr] at h
      exact h
    | inr st' =>
      rw [hr] at h
      exact reflectionLoop_valInv cfg env prompt ds st' h

lemma finalize_valInv {α : Type} (st : SState α) (hst : arenaInv st.arena) :
    arenaInv (finalize st).arena := by
  unfold finalize
  cases hsb : st.best with
  | none => exact hst
  | some b =>
    simp only []
    exact backprop_inv _ _ _ hst (scoreAt_nonneg hst b)

/-- C6: for every node of the final search tree, `value` is non-negative and
`visits = 0` implies `value = 0` — the root starts at `(0, 0)`, candidate
nodes are created with `visits = 1` and `value` equal to their clamped
non-negative score, and backpropagation adds a non-negative score while
incrementing `visits`. -/
theorem search_visits_value_invariant {α : Type} (cfg : Config) (env : Env α)
    (prompt jobId : String) :
    ∀ n ∈ (search cfg env prompt jobId).arena,
      0 ≤ n.value ∧ (n.visits = 0 → n.value = 0) := by
  have hroot : arenaInv [rootNode α] := by
    intro n hn
    rw [List.mem_singleton.mp hn]
    exact ⟨le_refl 0, le_refl 0, fun _ => rfl⟩
  have main : arenaInv (search cfg env prompt jobId).arena := by
    unfold search
    rcases hE : expand env.agent prompt cfg.nCandidates 0 with ⟨results, calls⟩
    simp only []
    have h1 := level1Loop_valInv cfg env.value results 0
      { arena := [rootNode α], trace := initTrace jobId, best := none,
        calls := calls } hroot
    cases hl : level1Loop cfg env.value results 0
        { arena := [rootNode α], trace := initTrace jobId, best := none,
          calls := calls } with
    | inl early =>
      rw [hl] at h1
      exact h1
    | inr stx =>
      rw [hl] at h1
      simp only []
      have h2 := reflectionLoop_valInv cfg env prompt
        (roundDepths cfg.maxDepth) stx h1
      cases hr : reflectionLoop cfg env prompt (roundDepths cfg.maxDepth)
          stx with
      | inl early =>
        rw [hr] at h2
        exact h2
      | inr st' =>
        rw [hr] at h2
        exact finalize_valInv st' h2
  intro n hn
  exact ⟨(main n hn).1, (main n hn).2.2⟩

theorem search_visits_value_invariant_witness :
    0 ≤ (searchS.arena.get ⟨0, by decide⟩).value ∧
    0 ≤ (searchS.arena.get ⟨3, by decide⟩).value :=
  ⟨(search_visits_value_invariant cfgS envS "p" "job" _
      (List.get_mem searchS.arena 0 (by decide))).1,
   (search_visits_value_invariant cfgS envS "p" "job" _
      (List.get_mem searchS.arena 3 (by decide))).1⟩

lemma adjustDepth_useLats (o : Orchestrator) (depth : String) :
    (adjustDepth o depth).useLats = o.useLats := by
  unfold adjustDepth
  by_cases h1 : (depth == "quick") = true
  · rw [if_pos h1]
  · rw [if_neg h1]
    by_cases h2 : (depth == "deep") = true
    · rw [if_pos h2]
    · rw [if_neg h2]

lemma scoutStage_events_cases {β π : Type} (o : Orchestrator)
    (stg : Stages β π) (target jobId depth : String) :
    (scoutStage o stg target jobId depth).2.2 =
      [CallEvent.latsSearch "scout" o.scoutEngine.nCandidates] ∨
    (scoutStage o stg target jobId depth).2.2 = [CallEvent.scoutCall] := by
  unfold scoutStage
  by_cases h : (o.useLats && !(depth == "quick")) = true
  · rw [if_pos h]
    exact Or.inl rfl
  · rw [if_neg h]
    exact Or.inr rfl

lemma strategyStage_events_cases {β π : Type} (o : Orchestrator)
    (stg : Stages β π) (b : β) (jobId depth : String) :
    (strategyStage o stg b jobId depth).2.2 =
      [CallEvent.latsSearch "strategy" o.strategyEngine.nCandidates] ∨
    (strategyStage o stg b jobId depth).2.2 = [CallEvent.strategyCall] := by
  unfold strategyStage
  by_cases h : (o.useLats && !(depth == "quick")) = true
  · rw [if_pos h]
    exact Or.inl rfl
  · rw [if_neg h]
    exact Or.inr rfl

lemma mem_emitEv {e : CallEvent} {hasCb : Bool} {stage : String} {p : ℕ}
    (h : e ∈ emitEv hasCb stage p) : e = .callback stage p := by
  cases hasCb with
  | false => simp [emitEv] at h
  | true =>
    simp [emitEv] at h
    exact h

lemma errMsg_mentions (jobId stage tail : String)
    (h : stage ++ " stage failed" = tail) :
    errMsg jobId stage = "[Orchestrator][" ++ jobId ++ "] " ++ tail := by
  unfold errMsg
  rw [String.append_assoc, h]

/-- C7: a `None` Scout stage result makes `run` raise the runtime error
`"[Orchestrator][{job_id}] Scout stage failed"` and the Analyst service is
never invoked; symmetrically, a `None` Strategy stage result (after Scout and
Analyst succeeded) raises the strategy-specific error and the Presenter is
never invoked. -/
theorem run_stage_none_fails_fast {β π : Type} (o : Orchestrator)
    (stg : Stages β π) (jobId target depth : String) (hasCb : Bool) :
    ((scoutStage (adjustDepth o depth) stg target jobId depth).1 = none →
      (run o stg jobId target depth hasCb).result =
        .error (errMsg jobId "Scout") ∧
      CallEvent.analystCall ∉ (run o stg jobId target depth hasCb).events) ∧
    (∀ s a, (scoutStage (adjustDepth o depth) stg target jobId depth).1 =
        some s → stg.analyst s = some a →
      (strategyStage (adjustDepth o depth) stg a jobId depth).1 = none →
      (run o stg jobId target depth hasCb).result =
        .error (errMsg jobId "Strategy") ∧
      CallEvent.presenterCall ∉ (run o stg jobId target depth hasCb).events) ∧
    errMsg jobId "Scout" =
      "[Orchestrator][" ++ jobId ++ "] " ++ "Scout stage failed" ∧
    errMsg jobId "Strategy" =
      "[Orchestrator][" ++ jobId ++ "] " ++ "Strategy stage failed" := by
  have hSev := scoutStage_events_cases (adjustDepth o depth) stg target
    jobId depth
  refine ⟨?_, ?_, errMsg_mentions jobId "Scout" _ (by decide),
    errMsg_mentions jobId "Strategy" _ (by decide)⟩
  · intro hnone
    unfold run
    simp only []
    rw [hnone]
    simp only []
    refine ⟨trivial, ?_⟩
    intro hmem
    rcases List.mem_append.mp hmem with hmem | hmem
    · exact absurd (mem_emitEv hmem) (by simp)
    · rcases hSev with h | h <;> rw [h] at hmem <;> simp at hmem
  · intro s a hs ha hstrat
    have hTev := strategyStage_events_cases (adjustDepth o depth) stg a
      jobId depth
    unfold run
    simp only []
    rw [hs]
    simp only []
    rw [ha]
    simp only []
    rw [hstrat]
    simp only []
    refine ⟨trivial, ?_⟩
    intro hmem
    rcases List.mem_append.mp hmem with hmem | hmem
    · rcases List.mem_append.mp hmem with hmem | hmem
      · rcases List.mem_append.mp hmem with hmem | hmem
        · rcases List.mem_append.mp hmem with hmem | hmem
          · rcases List.mem_append.mp hmem with hmem | hmem
            · exact absurd (mem_emitEv hmem) (by simp)
            · rcases hSev with h | h <;> rw [h] at hmem <;> simp at hmem
          · exact absurd (mem_emitEv hmem) (by simp)
        · simp at hmem
      · exact absurd (mem_emitEv hmem) (by simp)
    · rcases hTev with h | h <;> rw [h] at hmem <;> simp at hmem

/-- C9: a `None` Analyst result — though only Scout and Strategy are
documented as fatal — still raises `"[Orchestrator][{job_id}] Analyst stage
failed"` before the Strategy stage is invoked in any form (neither a direct
`run_strategy` call nor a strategy LATS search happens); the Presenter
result, by contrast, is never checked for `None`: it is stored in the
returned dict unconditionally. -/
theorem run_analyst_none_and_presenter_unchecked {β π : Type}
    (o : Orchestrator) (stg : Stages β π) (jobId target depth : String)
    (hasCb : Bool) :
    (∀ s, (scoutStage (adjustDepth o depth) stg target jobId depth).1 =
        some s → stg.analyst s = none →
      (run o stg jobId target depth hasCb).result =
        .error (errMsg jobId "Analyst") ∧
      CallEvent.strategyCall ∉ (run o stg jobId target depth hasCb).events ∧
      (∀ n, CallEvent.latsSearch "strategy" n ∉
        (run o stg jobId target depth hasCb).events)) ∧
    (∀ s a g, (scoutStage (adjustDepth o depth) stg target jobId depth).1 =
        some s → stg.analyst s = some a →
      (strategyStage (adjustDepth o depth) stg a jobId depth).1 = some g →
      ∃ r, (run o stg jobId target depth hasCb).result = .ok r ∧
        r.presenter = stg.presenter s a g) ∧
    errMsg jobId "Analyst" =
      "[Orchestrator][" ++ jobId ++ "] " ++ "Analyst stage failed" := by
  have hSev := scoutStage_events_cases (adjustDepth o depth) stg target
    jobId depth
  refine ⟨?_, ?_, errMsg_mentions jobId "Analyst" _ (by decide)⟩
  · intro s hs hnone
    unfold run
    simp only []
    rw [hs]
    simp only []
    rw [hnone]
    simp only []
    refine ⟨trivial, ?_, ?_⟩
    · intro hmem
      rcases List.mem_append.mp hmem with hmem | hmem
      · rcases List.mem_append.mp hmem with hmem | hmem
        · rcases List.mem_append.mp hmem with hmem | hmem
          · exact absurd (mem_emitEv hmem) (by simp)
          · rcases hSev with h | h <;> rw [h] at hmem <;> simp at hmem
        · exact absurd (mem_emitEv hmem) (by simp)
      · simp at hmem
    · intro n hmem
      rcases List.mem_append.mp hmem with hmem | hmem
      · rcases List.mem_append.mp hmem with hmem | hmem
        · rcases List.mem_append.mp hmem with hmem | hmem
          · exact absurd (mem_emitEv hmem) (by simp)
          · rcases hSev with h | h <;> rw [h] at hmem <;> simp at hmem
        · exact absurd (mem_emitEv hmem) (by simp)
      · simp at hmem
  · intro s a g hs ha hg
    unfold run
    simp only []
    rw [hs]
    simp only []
    rw [ha]
    simp only []
    rw [hg]
    simp only []
    exact ⟨_, rfl, rfl⟩

lemma run_orch {β π : Type} (o : Orchestrator) (stg : Stages β π)
    (jobId target depth : String) (hasCb : Bool) :
    (run o stg jobId target depth hasCb).orch = adjustDepth o depth := by
  unfold run
  simp only []
  cases hS : (scoutStage (adjustDepth o depth) stg target jobId depth).1 with
  | none => rfl
  | some s =>
    simp only []
    cases hA : stg.analyst s with
    | none => rfl
    | some a =>
      simp only []
      cases hT : (strategyStage (adjustDepth o depth) stg a jobId depth).1 with
      | none => rfl
      | some g => rfl

lemma adjustDepth_quick_nc (o : Orchestrator) :
    (adjustDepth o "quick").scoutEngine.nCandidates = 1 ∧
    (adjustDepth o "quick").strategyEngine.nCandidates = 1 := by
  unfold adjustDepth
  rw [if_pos (by decide)]
  exact ⟨rfl, rfl⟩

lemma adjustDepth_deep_nc (o : Orchestrator) :
    (adjustDepth o "deep").scoutEngine.nCandidates = 3 ∧
    (adjustDepth o "deep").strategyEngine.nCandidates = 3 := by
  unfold adjustDepth
  rw [if_neg (by decide), if_pos (by decide)]
  exact ⟨rfl, rfl⟩

lemma adjustDepth_standard (o : Orchestrator) :
    adjustDepth o "standard" = o := by
  unfold adjustDepth
  rw [if_neg (by decide), if_neg (by decide)]

lemma run_events_prefix {β π : Type} (o : Orchestrator) (stg : Stages β π)
    (jobId target depth : String) (hasCb : Bool) :
    ∃ tail, (run o stg jobId target depth hasCb).events =
      emitEv hasCb "SCOUT" 10 ++
        (scoutStage (adjustDepth o depth) stg target jobId depth).2.2 ++
        tail := by
  unfold run
  simp only []
  cases hS : (scoutStage (adjustDepth o depth) stg target jobId depth).1 with
  | none => exact ⟨[], by simp⟩
  | some s =>
    simp only []
    cases hA : stg.analyst s with
    | none => exact ⟨emitEv hasCb "ANALYST" 35 ++ [CallEvent.analystCall],
        by simp [List.append_assoc]⟩
    | some a =>
      simp only []
      cases hT : (strategyStage (adjustDepth o depth) stg a jobId
          depth).1 with
      | none =>
        exact ⟨emitEv hasCb "ANALYST" 35 ++ [CallEvent.analystCall] ++
          emitEv hasCb "STRATEGY" 55 ++
          (strategyStage (adjustDepth o depth) stg a jobId depth).2.2,
          by simp [List.append_assoc]⟩
      | some g =>
        exact ⟨emitEv hasCb "ANALYST" 35 ++ [CallEvent.analystCall] ++
          emitEv hasCb "STRATEGY" 55 ++
          (strategyStage (adjustDepth o depth) stg a jobId depth).2.2 ++
          emitEv hasCb "PRESENTER" 80 ++ [CallEvent.presenterCall] ++
          emitEv hasCb "DONE" 100,
          by simp [List.append_assoc]⟩

/-- C8: `run` with depth `"quick"` (resp. `"deep"`) permanently sets both
engines' `n_candidates` to 1 (resp. 3) on the orchestrator object, and no
`run` call ever resets them: a subsequent `"standard"` run on the same
orchestrator leaves them at 1 and — when LATS is enabled — issues its Scout
search with `n_candidates = 1`, not the constructor's value. -/
theorem run_quick_mutates_engines_persistently {β π : Type}
    (o : Orchestrator) (stg : Stages β π) (jobId target : String)
    (hasCb : Bool) :
    ((run o stg jobId target "quick" hasCb).orch.scoutEngine.nCandidates = 1 ∧
     (run o stg jobId target "quick" hasCb).orch.strategyEngine.nCandidates
       = 1) ∧
    ((run o stg jobId target "deep" hasCb).orch.scoutEngine.nCandidates = 3 ∧
     (run o stg jobId target "deep" hasCb).orch.strategyEngine.nCandidates
       = 3) ∧
    ((run (run o stg jobId target "quick" hasCb).orch stg jobId target
        "standard" hasCb).orch.scoutEngine.nCandidates = 1 ∧
     (run (run o stg jobId target "quick" hasCb).orch stg jobId target
        "standard" hasCb).orch.strategyEngine.nCandidates = 1) ∧
    (o.useLats = true →
      CallEvent.latsSearch "scout" 1 ∈
        (run (run o stg jobId target "quick" hasCb).orch stg jobId target
          "standard" hasCb).events) := by
  have hq := adjustDepth_quick_nc o
  refine ⟨?_, ?_, ?_, ?_⟩
  · rw [run_orch]
    exact hq
  · rw [run_orch]
    exact adjustDepth_deep_nc o
  · rw [run_orch, run_orch, adjustDepth_standard]
    exact hq
  · intro hul
    rw [run_orch o stg jobId target "quick" hasCb]
    obtain ⟨tail, htail⟩ := run_events_prefix (adjustDepth o "quick") stg
      jobId target "standard" hasCb
    rw [htail, adjustDepth_standard]
    have hev : (scoutStage (adjustDepth o "quick") stg target jobId
        "standard").2.2 = [CallEvent.latsSearch "scout" 1] := by
      unfold scoutStage
      rw [if_pos (by rw [adjustDepth_useLats, hul]; decide)]
      rw [hq.1]
    rw [hev]
    simp

theorem run_stage_none_fails_fast_witness :
    ((run oDirect stgFailScout "j" "t" "standard" false).result =
      .error (errMsg "j" "Scout") ∧
     CallEvent.analystCall ∉
       (run oDirect stgFailScout "j" "t" "standard" false).events) ∧
    ((run oDirect stgFailStrategy "j" "t" "standard" false).result =
      .error (errMsg "j" "Strategy") ∧
     CallEvent.presenterCall ∉
       (run oDirect stgFailStrategy "j" "t" "standard" false).events) :=
  ⟨(run_stage_none_fails_fast oDirect stgFailScout "j" "t" "standard"
      false).1 (by decide),
   (run_stage_none_fails_fast oDirect stgFailStrategy "j" "t" "standard"
      false).2.1 scoutResW 0 (by decide) (by decide) (by decide)⟩

theorem run_analyst_none_and_presenter_unchecked_witness :
    ((run oDirect stgFailAnalyst "j" "t" "standard" false).result =
      .error (errMsg "j" "Analyst") ∧
     CallEvent.strategyCall ∉
       (run oDirect stgFailAnalyst "j" "t" "standard" false).events ∧
     (∀ n, CallEvent.latsSearch "strategy" n ∉
       (run oDirect stgFailAnalyst "j" "t" "standard" false).events)) ∧
    (∃ r, (run oDirect stgPresenterNone "j" "t" "standard" false).result =
        .ok r ∧
      r.presenter = stgPresenterNone.presenter scoutResW 0 strategyResW) :=
  ⟨(run_analyst_none_and_presenter_unchecked oDirect stgFailAnalyst "j" "t"
      "standard" false).1 scoutResW (by decide) (by decide),
   (run_analyst_none_and_presenter_unchecked oDirect stgPresenterNone "j" "t"
      "standard" false).2.1 scoutResW 0 strategyResW (by decide) (by decide)
      (by decide)⟩

theorem run_quick_mutates_engines_persistently_witness :
    ((run (run oLats stgPresenterNone "j" "t" "quick" false).orch
        stgPresenterNone "j" "t" "standard" false).orch.scoutEngine.nCandidates
      = 1) ∧
    CallEvent.latsSearch "scout" 1 ∈
      (run (run oLats stgPresenterNone "j" "t" "quick" false).orch
        stgPresenterNone "j" "t" "standard" false).events :=
  ⟨(run_quick_mutates_engines_persistently oLats stgPresenterNone "j" "t"
      false).2.2.1.1,
   (run_quick_mutates_engines_persistently oLats stgPresenterNone "j" "t"
      false).2.2.2 rfl⟩

end Athena
